import Mathlib

/-!
# Verification of the CausalKnowledgeTrace graph-creation core

A shallow embedding, in Lean 4, of the graph-creation subsystem of the
CausalKnowledgeTrace repository (Python sources under `graph_creation/`),
together with theorems settling a list of claims about it.

The embedding covers:
* the name normalizer `clean_output_name` (database_operations.py, lines 179-199);
* the predication-store row model and the per-hop SQL query semantics of
  `_fetch_first_hop`, `_fetch_second_hop`, `_fetch_higher_hop`
  (database_operations.py, lines 397-520);
* the k-hop loop `fetch_k_hop_relationships` (database_operations.py, lines 561-599);
* the canonical-name election `build_cui_to_name_mapping`
  (database_operations.py, lines 522-559);
* the pre-flight probe `check_evidence_exists` and the `run_analysis`
  control flow (analysis_core.py, lines 371-500);
* the Markov-blanket computation (markov_blanket.py);
* the YAML configuration plumbing `load_yaml_config` (config_models.py,
  lines 55-123) and the blocklist extraction in `GraphAnalyzer.__init__`
  (analysis_core.py, lines 79-85).

SQL queries are embedded by translating their WHERE / GROUP BY / HAVING
clauses into list-level semantics over an explicit table of rows;
`COUNT(DISTINCT pmid)` becomes the length of a deduplicated pmid list.
-/

namespace CKT

/-! ## Name normalizer (`clean_output_name`)

Source (database_operations.py, lines 179-199):
the input is coerced to a string; a falsy (empty) input returns the empty
string; otherwise every maximal run of characters from the regex class
is replaced by a single underscore, underscore runs are collapsed,
leading and trailing underscores are stripped, and if the result is empty
the literal unknown_node is returned.
-/

/-- The character class of the substitution regex in `clean_output_name`.
The Python class is the punctuation set below plus regex whitespace; the
ASCII whitespace characters of Python are listed explicitly (non-ASCII
Unicode spaces are not modelled; no claim depends on them). The underscore
is deliberately NOT in the class. -/
def isPunctChar (c : Char) : Bool :=
  ['|', ',', '\x27', ':', ';', '(', ')', '[', ']', '\x7b', '\x7d', '<', '>',
   '!', '@', '#', '$', '%', '^', '&', '*', '+', '=', '~', '\x60', '\x22',
   '\\', '/', '?', '.', '-', ' ', '\t', '\n', '\r', '\x0b', '\x0c'].contains c

/-- One pass of `re.sub(r\x7b...\x7d+, underscore, name)`: each maximal run of
class characters becomes a single underscore. The boolean flag records
whether the previous character belonged to a run. -/
def subPunctAux : Bool → List Char → List Char
  | _, [] => []
  | inRun, c :: cs =>
    if isPunctChar c then
      if inRun then subPunctAux true cs else '_' :: subPunctAux true cs
    else c :: subPunctAux false cs

/-- Replace every maximal run of regex-class characters by one underscore. -/
def subPunctRuns (l : List Char) : List Char := subPunctAux false l

/-- One pass of collapsing underscore runs to a single underscore
(the second `re.sub` in the source). The flag records whether the
previously emitted character was an underscore. -/
def collapseAux : Bool → List Char → List Char
  | _, [] => []
  | prevU, c :: cs =>
    if c = '_' then
      if prevU then collapseAux true cs else '_' :: collapseAux true cs
    else c :: collapseAux false cs

/-- Collapse runs of underscores. -/
def collapseUnders (l : List Char) : List Char := collapseAux false l

/-- Drop leading underscores (the leading half of Python `strip` with
underscore argument). -/
def dropLeadU : List Char → List Char
  | [] => []
  | c :: cs => if c = '_' then dropLeadU cs else c :: cs

/-- Drop trailing underscores (the trailing half of Python `strip` with
underscore argument). -/
def dropTrailU : List Char → List Char
  | [] => []
  | c :: cs =>
    if dropTrailU cs = [] then (if c = '_' then [] else [c]) else c :: dropTrailU cs

/-- Strip leading and trailing underscores. -/
def stripUnders (l : List Char) : List Char := dropTrailU (dropLeadU l)

/-- The three cleaning passes of `clean_output_name` applied to the
character list of a string. -/
def cleanCore (s : String) : List Char :=
  stripUnders (collapseUnders (subPunctRuns s.data))

/-- `clean_output_name` (database_operations.py, lines 179-199): a falsy
(empty) input returns the empty string (line 182, `return`  of the empty
string); otherwise the three passes run, and an empty result is replaced
by the literal unknown_node. -/
def cleanOutputName (name : String) : String :=
  if name = "" then ""
  else
    let cleaned := String.mk (cleanCore name)
    if cleaned = "" then "unknown_node" else cleaned

example : cleanOutputName "" = "" := by decide
example : cleanOutputName "a, b" = "a_b" := by decide
example : cleanOutputName "--" = "unknown_node" := by decide
example : cleanOutputName "_x_" = "x" := by decide

/-! ### Invariants of the cleaning passes -/

/-- No character of the list belongs to the substitution class. -/
def NoPunct (l : List Char) : Prop := ∀ c ∈ l, isPunctChar c = false

/-- No two adjacent underscores. -/
def NoDoubleU : List Char → Prop
  | [] => True
  | [_] => True
  | c₁ :: c₂ :: rest => ¬(c₁ = '_' ∧ c₂ = '_') ∧ NoDoubleU (c₂ :: rest)

/-- The first character, if any, is not an underscore. -/
def HeadNotU : List Char → Prop
  | [] => True
  | c :: _ => c ≠ '_'

/-- The last character, if any, is not an underscore. -/
def LastNotU : List Char → Prop
  | [] => True
  | [c] => c ≠ '_'
  | _ :: c :: rest => LastNotU (c :: rest)

theorem isPunctChar_underscore : isPunctChar '_' = false := by decide

theorem noPunct_subPunctAux (b : Bool) (l : List Char) : NoPunct (subPunctAux b l) := by
  induction l generalizing b with
  | nil => intro d hd; simp [subPunctAux] at hd
  | cons c cs ih =>
    intro d hd
    cases hp : isPunctChar c with
    | true =>
      cases b with
      | true =>
        simp only [subPunctAux, hp, if_true] at hd
        exact ih true d hd
      | false =>
        simp only [subPunctAux, hp, if_true, if_false] at hd
        rcases List.mem_cons.mp hd with h | h
        · subst h; exact isPunctChar_underscore
        · exact ih true d h
    | false =>
      simp only [subPunctAux, hp, if_false, Bool.false_eq_true] at hd
      rcases List.mem_cons.mp hd with h | h
      · subst h; exact hp
      · exact ih false d h

theorem subPunctAux_id (l : List Char) (h : NoPunct l) : subPunctAux false l = l := by
  induction l with
  | nil => rfl
  | cons c cs ih =>
    have hc : isPunctChar c = false := h c (List.mem_cons_self c cs)
    have hcs : NoPunct cs := fun d hd => h d (List.mem_cons_of_mem c hd)
    simp [subPunctAux, hc, ih hcs]

theorem noPunct_collapseAux (b : Bool) (l : List Char) (h : NoPunct l) :
    NoPunct (collapseAux b l) := by
  induction l generalizing b with
  | nil => intro d hd; simp [collapseAux] at hd
  | cons c cs ih =>
    have hcs : NoPunct cs := fun d hd => h d (List.mem_cons_of_mem c hd)
    intro d hd
    by_cases hc : c = '_'
    · subst hc
      cases b with
      | true =>
        simp only [collapseAux, if_pos rfl, if_true] at hd
        exact ih true hcs d hd
      | false =>
        simp only [collapseAux, if_pos rfl, if_true, if_false] at hd
        rcases List.mem_cons.mp hd with h1 | h1
        · subst h1; exact isPunctChar_underscore
        · exact ih true hcs d h1
    · simp only [collapseAux, if_neg hc] at hd
      rcases List.mem_cons.mp hd with h1 | h1
      · subst h1; exact h d (List.mem_cons_self d cs)
      · exact ih false hcs d h1

theorem headNotU_collapseAux_true (l : List Char) : HeadNotU (collapseAux true l) := by
  induction l with
  | nil => trivial
  | cons c cs ih =>
    by_cases hc : c = '_'
    · subst hc; simpa [collapseAux] using ih
    · simp only [collapseAux, if_neg hc]
      exact hc

theorem noDoubleU_tail {c : Char} {cs : List Char} (h : NoDoubleU (c :: cs)) :
    NoDoubleU cs := by
  cases cs with
  | nil => trivial
  | cons d ds => exact h.2

theorem noDoubleU_cons {c : Char} {l : List Char} (hc : c ≠ '_' ∨ HeadNotU l)
    (h : NoDoubleU l) : NoDoubleU (c :: l) := by
  cases l with
  | nil => trivial
  | cons d ds =>
    refine ⟨?_, h⟩
    rintro ⟨h1, h2⟩
    rcases hc with hc | hc
    · exact hc h1
    · exact hc h2

theorem noDoubleU_collapseAux (b : Bool) (l : List Char) : NoDoubleU (collapseAux b l) := by
  induction l generalizing b with
  | nil => simp [collapseAux]; trivial
  | cons c cs ih =>
    by_cases hc : c = '_'
    · subst hc
      cases b with
      | true => simpa [collapseAux] using ih true
      | false =>
        simp only [collapseAux, if_pos rfl, if_true, if_false]
        exact noDoubleU_cons (Or.inr (headNotU_collapseAux_true cs)) (ih true)
    · simp only [collapseAux, if_neg hc]
      exact noDoubleU_cons (Or.inl hc) (ih false)

theorem collapseAux_id (l : List Char) (h : NoDoubleU l) :
    collapseAux false l = l ∧ (HeadNotU l → collapseAux true l = l) := by
  induction l with
  | nil => exact ⟨rfl, fun _ => rfl⟩
  | cons c cs ih =>
    have hcs := noDoubleU_tail h
    obtain ⟨ih1, ih2⟩ := ih hcs
    by_cases hc : c = '_'
    · subst hc
      have hhead : HeadNotU cs := by
        cases cs with
        | nil => trivial
        | cons d ds => exact fun hd => h.1 ⟨rfl, hd⟩
      refine ⟨?_, ?_⟩
      · simp [collapseAux, ih2 hhead]
      · intro hfalse; exact absurd rfl hfalse
    · refine ⟨?_, ?_⟩
      · simp [collapseAux, hc, ih1]
      · intro _; simp [collapseAux, hc, ih1]

theorem headNotU_dropLeadU (l : List Char) : HeadNotU (dropLeadU l) := by
  induction l with
  | nil => trivial
  | cons c cs ih =>
    by_cases hc : c = '_'
    · subst hc; simpa [dropLeadU] using ih
    · simp only [dropLeadU, if_neg hc]
      exact hc

theorem noPunct_dropLeadU (l : List Char) (h : NoPunct l) : NoPunct (dropLeadU l) := by
  induction l with
  | nil => exact h
  | cons c cs ih =>
    have hcs : NoPunct cs := fun d hd => h d (List.mem_cons_of_mem c hd)
    by_cases hc : c = '_'
    · subst hc; simpa [dropLeadU] using ih hcs
    · simpa [dropLeadU, hc] using h

theorem noDoubleU_dropLeadU (l : List Char) (h : NoDoubleU l) : NoDoubleU (dropLeadU l) := by
  induction l with
  | nil => exact h
  | cons c cs ih =>
    by_cases hc : c = '_'
    · subst hc; simpa [dropLeadU] using ih (noDoubleU_tail h)
    · simpa [dropLeadU, hc] using h

theorem dropLeadU_id (l : List Char) (h : HeadNotU l) : dropLeadU l = l := by
  cases l with
  | nil => rfl
  | cons c cs =>
    have hc : c ≠ '_' := h
    simp [dropLeadU, hc]

theorem noPunct_dropTrailU (l : List Char) (h : NoPunct l) : NoPunct (dropTrailU l) := by
  induction l with
  | nil => exact h
  | cons c cs ih =>
    have hcs : NoPunct cs := fun d hd => h d (List.mem_cons_of_mem c hd)
    have hc : isPunctChar c = false := h c (List.mem_cons_self c cs)
    intro d hd
    by_cases hr : dropTrailU cs = []
    · by_cases hu : c = '_'
      · simp [dropTrailU, hr, hu] at hd
      · simp only [dropTrailU, hr, if_pos rfl, if_neg hu] at hd
        rcases List.mem_singleton.mp hd with h1
        subst h1; exact hc
    · simp only [dropTrailU, if_neg hr] at hd
      rcases List.mem_cons.mp hd with h1 | h1
      · subst h1; exact hc
      · exact ih hcs d h1

theorem dropTrailU_shape (c : Char) (cs : List Char) :
    dropTrailU (c :: cs) = [] ∨ ∃ t, dropTrailU (c :: cs) = c :: t := by
  by_cases hr : dropTrailU cs = []
  · by_cases hu : c = '_'
    · left; simp [dropTrailU, hr, hu]
    · right; exact ⟨[], by simp [dropTrailU, hr, hu]⟩
  · right; exact ⟨dropTrailU cs, by simp [dropTrailU, hr]⟩

theorem headNotU_dropTrailU (l : List Char) (h : HeadNotU l) : HeadNotU (dropTrailU l) := by
  cases l with
  | nil => trivial
  | cons c cs =>
    rcases dropTrailU_shape c cs with h1 | ⟨t, h1⟩
    · rw [h1]; trivial
    · rw [h1]; exact h

theorem noDoubleU_dropTrailU (l : List Char) (h : NoDoubleU l) : NoDoubleU (dropTrailU l) := by
  induction l with
  | nil => exact h
  | cons c cs ih =>
    by_cases hr : dropTrailU cs = []
    · by_cases hu : c = '_'
      · simp [dropTrailU, hr, hu]; trivial
      · simp [dropTrailU, hr, hu]; trivial
    · simp only [dropTrailU, if_neg hr]
      have hnd : NoDoubleU (dropTrailU cs) := ih (noDoubleU_tail h)
      refine noDoubleU_cons ?_ hnd
      by_cases hu : c = '_'
      · subst hu
        right
        cases cs with
        | nil => exact absurd rfl hr
        | cons d ds =>
          have hd : d ≠ '_' := fun hdu => h.1 ⟨rfl, hdu⟩
          rcases dropTrailU_shape d ds with h1 | ⟨t, h1⟩
          · exact absurd h1 hr
          · rw [h1]; exact hd
      · exact Or.inl hu

theorem lastNotU_dropTrailU (l : List Char) : LastNotU (dropTrailU l) := by
  induction l with
  | nil => trivial
  | cons c cs ih =>
    by_cases hr : dropTrailU cs = []
    · by_cases hu : c = '_'
      · simp [dropTrailU, hr, hu]; trivial
      · have he : dropTrailU (c :: cs) = [c] := by simp [dropTrailU, hr, hu]
        rw [he]; exact hu
    · simp only [dropTrailU, if_neg hr]
      cases h1 : dropTrailU cs with
      | nil => exact absurd h1 hr
      | cons x xs =>
        show LastNotU (x :: xs)
        rw [← h1]
        exact ih

theorem dropTrailU_id (l : List Char) (h : LastNotU l) : dropTrailU l = l := by
  induction l with
  | nil => rfl
  | cons c cs ih =>
    cases cs with
    | nil =>
      have hc : c ≠ '_' := h
      simp [dropTrailU, hc]
    | cons d ds =>
      have hds : LastNotU (d :: ds) := h
      have hid : dropTrailU (d :: ds) = d :: ds := ih hds
      have hstep : dropTrailU (c :: d :: ds) =
          if dropTrailU (d :: ds) = [] then (if c = '_' then [] else [c])
          else c :: dropTrailU (d :: ds) := rfl
      rw [hstep, hid]
      simp

theorem noPunct_cleanCore (s : String) : NoPunct (cleanCore s) :=
  noPunct_dropTrailU _ (noPunct_dropLeadU _ (noPunct_collapseAux _ _ (noPunct_subPunctAux _ _)))

theorem noDoubleU_cleanCore (s : String) : NoDoubleU (cleanCore s) :=
  noDoubleU_dropTrailU _ (noDoubleU_dropLeadU _ (noDoubleU_collapseAux _ _))

theorem headNotU_cleanCore (s : String) : HeadNotU (cleanCore s) :=
  headNotU_dropTrailU _ (headNotU_dropLeadU _)

theorem lastNotU_cleanCore (s : String) : LastNotU (cleanCore s) :=
  lastNotU_dropTrailU _

theorem cleanPasses_fixed (l : List Char) (h1 : NoPunct l) (h2 : NoDoubleU l)
    (h3 : HeadNotU l) (h4 : LastNotU l) :
    stripUnders (collapseUnders (subPunctRuns l)) = l := by
  rw [subPunctRuns, subPunctAux_id l h1, collapseUnders, (collapseAux_id l h2).1,
    stripUnders, dropLeadU_id l h3, dropTrailU_id l h4]

/-- C10: the name normalizer `clean_output_name` is idempotent; cleaning an
already cleaned name changes nothing. -/
theorem cleanOutputName_idempotent (s : String) :
    cleanOutputName (cleanOutputName s) = cleanOutputName s := by
  by_cases hs : s = ""
  · subst hs; decide
  · have hcore : cleanCore (String.mk (cleanCore s)) = cleanCore s :=
      cleanPasses_fixed _ (noPunct_cleanCore s) (noDoubleU_cleanCore s)
        (headNotU_cleanCore s) (lastNotU_cleanCore s)
    by_cases hr : String.mk (cleanCore s) = ""
    · have h1 : cleanOutputName s = "unknown_node" := by
        simp [cleanOutputName, hs, hr]
      rw [h1]; decide
    · have h1 : cleanOutputName s = String.mk (cleanCore s) := by
        simp [cleanOutputName, hs, hr]
      rw [h1]
      simp [cleanOutputName, hr, hcore]

/-- C8 (counterexample): the claim states that `clean_output_name` returns
the literal unknown_node on the empty input; the source instead returns the
empty string on a falsy input (database_operations.py, line 182). -/
theorem cleanOutputName_empty_counterexample :
    cleanOutputName "" = "" ∧ decide (cleanOutputName "" = "unknown_node") = false := by
  decide

/-- C8 (amended): `clean_output_name` returns the empty string on the empty
input, and returns the literal unknown_node whenever the input is non-empty
and the punctuation-replacement, underscore-collapsing and
underscore-trimming passes leave the empty string. -/
theorem cleanOutputName_empty_amended :
    cleanOutputName "" = "" ∧
      ∀ s : String, s ≠ "" → cleanCore s = [] → cleanOutputName s = "unknown_node" := by
  refine ⟨by decide, ?_⟩
  intro s hs hc
  have h0 : String.mk (cleanCore s) = "" := by rw [hc]
  simp [cleanOutputName, hs, h0]

/-- C8 witness: the amended statement applied at concrete inputs. -/
theorem cleanOutputName_empty_amended_witness :
    cleanOutputName "" = "" ∧ cleanOutputName "--" = "unknown_node" :=
  ⟨cleanOutputName_empty_amended.1,
    cleanOutputName_empty_amended.2 "--" (by decide) (by decide)⟩

/-! ## Data model and evidence store

The predication table (one row per triple and citing publication) and the
sentence table, as described by the adapter and read by the queries. All
columns are text. -/

/-- One row of the predication table. -/
structure PredRow where
  subject_cui : String
  subject_name : String
  subject_semtype : String
  object_cui : String
  object_name : String
  object_semtype : String
  predicate : String
  pmid : String
  sentence_id : String
deriving DecidableEq

/-- One row of the sentence table. -/
structure SentRow where
  pmid : String
  sentence_id : String
  sentence : String
  cui : String
  name : String
deriving DecidableEq

/-- The two tables of the relational store. -/
structure Store where
  pred : List PredRow
  sent : List SentRow
deriving DecidableEq

/-- `ExposureOutcomePair` (config_models.py, lines 128-158), after
`__post_init__` has coerced single CUIs to singleton lists. -/
structure ExposureOutcomePair where
  name : String
  exposure_cui : List String
  exposure_name : String
  outcome_cui : List String
  outcome_name : String
  description : String
deriving DecidableEq

/-- The `exposure_cui_list` property. -/
def ExposureOutcomePair.exposure_cui_list (c : ExposureOutcomePair) : List String :=
  c.exposure_cui

/-- The `outcome_cui_list` property. -/
def ExposureOutcomePair.outcome_cui_list (c : ExposureOutcomePair) : List String :=
  c.outcome_cui

/-- The state of `DatabaseOperations.__init__` (database_operations.py,
lines 110-142). When no degree-specific thresholds are supplied the source
builds the constant map hop to threshold; the lookup below defaults to the
flat threshold, so the empty list models that case. -/
structure DbOps where
  config : ExposureOutcomePair
  threshold : Nat
  predication_types : List String
  degree : Nat
  blocklist_cuis : List String
  thresholds_by_degree : List (Nat × Nat)
deriving DecidableEq

/-- `self.thresholds_by_degree.get(hop_level, self.threshold)`. -/
def hopThreshold (ops : DbOps) (hop : Nat) : Nat :=
  (ops.thresholds_by_degree.lookup hop).getD ops.threshold

/-! ## Hop query semantics

The three hop queries share one shape: a row filter (WHERE), grouping by
the five selected key columns (GROUP BY), a distinct-pmid count per group
with a threshold (HAVING COUNT(DISTINCT pmid) at least the hop threshold),
and ordering by subject name. They are translated clause by clause. -/

/-- The GROUP BY key: subject_name, object_name, subject_cui, object_cui,
predicate. -/
def rowKey (r : PredRow) : String × String × String × String × String :=
  (r.subject_name, r.object_name, r.subject_cui, r.object_cui, r.predicate)

/-- `_create_blocklist_conditions` (lines 157-169): an empty blocklist adds
no clause (always true); otherwise subject_cui != ALL(arr) AND
object_cui != ALL(arr). Both cases equal the membership test below. -/
def blocklistOk (bl : List String) (r : PredRow) : Bool :=
  !bl.contains r.subject_cui && !bl.contains r.object_cui

/-- `_create_predication_condition` (lines 171-177): equality for one
predication type, an IN list otherwise; both equal membership. -/
def predicateOk (preds : List String) (r : PredRow) : Bool :=
  preds.contains r.predicate

/-- The WHERE clause of the hop-1 query (`_fetch_first_hop`, lines 409-432):
predicate filter, the disjunctive CUI condition with the exposure list
tested against subject and object and likewise the outcome list, and the
blocklist clause. The query text contains NO semantic-type condition. -/
def hop1Filter (ops : DbOps) (r : PredRow) : Bool :=
  predicateOk ops.predication_types r &&
    ((ops.config.exposure_cui_list.contains r.subject_cui ||
      ops.config.exposure_cui_list.contains r.object_cui) ||
     (ops.config.outcome_cui_list.contains r.subject_cui ||
      ops.config.outcome_cui_list.contains r.object_cui)) &&
    blocklistOk ops.blocklist_cuis r

/-- The WHERE clause of the hop-2 and higher queries (`_fetch_second_hop`
lines 457-470, `_fetch_higher_hop` lines 499-510): predicate filter,
subject or object in the previous-hop CUI list, blocklist clause. Again no
semantic-type condition appears in the query text. -/
def hopNFilter (ops : DbOps) (previous : List String) (r : PredRow) : Bool :=
  predicateOk ops.predication_types r &&
    (previous.contains r.subject_cui || previous.contains r.object_cui) &&
    blocklistOk ops.blocklist_cuis r

/-- An assertion as produced by `_process_hop_results` (lines 601-656). The
source labels the hop with an ordinal word via `_get_hop_name`; the hop
number itself is kept here. The per-pmid sentence texts attached by the
source are not modelled (no settled claim concerns them); the distinct
pmid list is. -/
structure Assertion where
  subject_name : String
  subject_cui : String
  predicate : String
  object_name : String
  object_cui : String
  evidence_count : Nat
  hop_level : Nat
  pmids : List String
deriving DecidableEq

/-- The distinct pmids of the rows of one group (COUNT(DISTINCT pmid) /
STRING_AGG(DISTINCT pmid)). -/
def groupPmids (rows : List PredRow) (k : String × String × String × String × String) :
    List String :=
  ((rows.filter (fun r => decide (rowKey r = k))).map (·.pmid)).dedup

/-- GROUP BY / HAVING semantics shared by the hop queries: one assertion
per key of the filtered rows whose distinct-pmid count meets the hop
threshold. -/
def hopGroups (rows : List PredRow) (thr : Nat) (hop : Nat) : List Assertion :=
  ((rows.map rowKey).dedup).filterMap (fun k =>
    let pm := groupPmids rows k
    if thr ≤ pm.length then
      some { subject_name := k.1, object_name := k.2.1, subject_cui := k.2.2.1,
             object_cui := k.2.2.2.1, predicate := k.2.2.2.2,
             evidence_count := pm.length, hop_level := hop, pmids := pm }
    else none)

/-- Stable insertion into a list sorted by subject name. -/
def insertBySubj (a : Assertion) : List Assertion → List Assertion
  | [] => [a]
  | b :: rest =>
    if a.subject_name ≤ b.subject_name then a :: b :: rest else b :: insertBySubj a rest

/-- ORDER BY subject_name ASC (ties keep their relative order; SQL leaves
them unspecified). -/
def sortBySubj (l : List Assertion) : List Assertion := l.foldr insertBySubj []

/-- `_fetch_first_hop` (database_operations.py, lines 397-439). -/
def fetchFirstHop (ops : DbOps) (store : Store) : List Assertion :=
  sortBySubj (hopGroups (store.pred.filter (hop1Filter ops)) (hopThreshold ops 1) 1)

/-- `_fetch_second_hop` (lines 441-480); an empty previous-hop list short
circuits to no results (lines 446-447). -/
def fetchSecondHop (ops : DbOps) (store : Store) (previous : List String) : List Assertion :=
  if previous = [] then []
  else sortBySubj (hopGroups (store.pred.filter (hopNFilter ops previous)) (hopThreshold ops 2) 2)

/-- `_fetch_higher_hop` (lines 482-520), hop level 3 and above; the same
query shape with the hop-specific threshold. -/
def fetchHigherHop (ops : DbOps) (store : Store) (hop : Nat) (previous : List String) :
    List Assertion :=
  if previous = [] then []
  else
    sortBySubj (hopGroups (store.pred.filter (hopNFilter ops previous)) (hopThreshold ops hop) hop)

/-- `fetch_n_hop_relationships` (lines 372-390): dispatch on the hop level;
hop 1 ignores the previous CUIs (None in the source). -/
def fetchNHop (ops : DbOps) (store : Store) (hop : Nat) (previous : Option (List String)) :
    List Assertion :=
  if hop = 1 then fetchFirstHop ops store
  else if hop = 2 then fetchSecondHop ops store (previous.getD [])
  else fetchHigherHop ops store hop (previous.getD [])

/-! ## Semantic types and the hop queries (claim C1)

The hop queries of the traversal contain no semantic-type condition; the
excluded set appears only in the Markov-blanket queries (markov_blanket.py)
and in the legacy monoliths config.py and pushkin.py, which the analyzer
pipeline does not call. -/

/-- Overwrite the two semantic-type columns of a row. -/
def setSemtypes (r : PredRow) (s₁ s₂ : String) : PredRow :=
  { r with subject_semtype := s₁, object_semtype := s₂ }

theorem map_congr_fun {α β : Type} (f g : α → β) (l : List α) (h : ∀ a, f a = g a) :
    l.map f = l.map g := by
  induction l with
  | nil => rfl
  | cons a as ih => simp [h a, ih]

theorem filter_map_comm {α β : Type} (h : α → β) (p : β → Bool) (l : List α) :
    (l.map h).filter p = (l.filter (fun a => p (h a))).map h := by
  induction l with
  | nil => rfl
  | cons a as ih => by_cases hp : p (h a) <;> simp [hp, ih]

theorem filter_congr_fun {α : Type} (p q : α → Bool) (l : List α) (h : ∀ a, p a = q a) :
    l.filter p = l.filter q := by
  induction l with
  | nil => rfl
  | cons a as ih => rw [List.filter_cons, List.filter_cons, h a, ih]

/-- Rewriting rows by any key- and pmid-preserving function leaves the
grouped results unchanged. -/
theorem hopGroups_map_invariant (h : PredRow → PredRow)
    (hk : ∀ r, rowKey (h r) = rowKey r) (hpm : ∀ r, (h r).pmid = r.pmid)
    (rows : List PredRow) (thr hop : Nat) :
    hopGroups (rows.map h) thr hop = hopGroups rows thr hop := by
  have hkeys : (rows.map h).map rowKey = rows.map rowKey := by
    rw [List.map_map]
    exact map_congr_fun _ _ rows fun r => hk r
  have hgp : ∀ k, groupPmids (rows.map h) k = groupPmids rows k := by
    intro k
    unfold groupPmids
    rw [filter_map_comm]
    have heq : (fun a => decide (rowKey (h a) = k)) = (fun a => decide (rowKey a = k)) :=
      funext fun a => by rw [hk]
    rw [heq, List.map_map]
    congr 1
    exact map_congr_fun _ _ _ fun r => hpm r
  unfold hopGroups
  rw [hkeys]
  simp only [hgp]

/-- C1 (amended): the fixed excluded semantic-type set is NOT applied inside
the hop queries of the k-hop traversal; every hop query is independent of
the subject and object semantic types, so assertions whose rows carry
excluded semantic types are retained exactly as any others. (The exclusion
is applied only in the Markov-blanket queries.) Arbitrarily rewriting the
semantic types of every stored row leaves every hop result unchanged. -/
theorem hop_queries_semtype_independent (ops : DbOps) (store : Store)
    (f g : PredRow → String) :
    fetchFirstHop ops { store with pred := store.pred.map (fun r => setSemtypes r (f r) (g r)) } =
        fetchFirstHop ops store ∧
      (∀ previous,
        fetchSecondHop ops
            { store with pred := store.pred.map (fun r => setSemtypes r (f r) (g r)) } previous =
          fetchSecondHop ops store previous) ∧
      (∀ hop previous,
        fetchHigherHop ops
            { store with pred := store.pred.map (fun r => setSemtypes r (f r) (g r)) } hop previous =
          fetchHigherHop ops store hop previous) := by
  have core : ∀ (p : PredRow → Bool) (thr hop : Nat),
      hopGroups ((store.pred.map (fun r => setSemtypes r (f r) (g r))).filter p) thr hop =
        hopGroups (store.pred.filter (fun r => p (setSemtypes r (f r) (g r)))) thr hop := by
    intro p thr hop
    rw [filter_map_comm]
    exact hopGroups_map_invariant (fun r => setSemtypes r (f r) (g r))
      (fun r => rfl) (fun r => rfl) _ thr hop
  refine ⟨?_, ?_, ?_⟩
  · unfold fetchFirstHop
    rw [core, filter_congr_fun (fun r => hop1Filter ops (setSemtypes r (f r) (g r)))
      (hop1Filter ops) store.pred (fun r => rfl)]
  · intro previous
    unfold fetchSecondHop
    by_cases hprev : previous = ([] : List String)
    · simp [hprev]
    · simp only [if_neg hprev]
      rw [core, filter_congr_fun (fun r => hopNFilter ops previous (setSemtypes r (f r) (g r)))
        (hopNFilter ops previous) store.pred (fun r => rfl)]
  · intro hop previous
    unfold fetchHigherHop
    by_cases hprev : previous = ([] : List String)
    · simp [hprev]
    · simp only [if_neg hprev]
      rw [core, filter_congr_fun (fun r => hopNFilter ops previous (setSemtypes r (f r) (g r)))
        (hopNFilter ops previous) store.pred (fun r => rfl)]

/-- The depression-alzheimers configuration (config_models.py, lines
191-198), CUIs coerced to lists. -/
def depressionAlzheimers : ExposureOutcomePair :=
  { name := "depression_alzheimers", exposure_cui := ["C0011570"],
    exposure_name := "Depression", outcome_cui := ["C0002395"],
    outcome_name := "Alzheimers_Disease",
    description := "Investigating the relationship between depression and Alzheimers disease" }

/-- Database operations with the default CAUSES predicate, threshold 1,
degree 1, no blocklist. -/
def opsSem : DbOps :=
  { config := depressionAlzheimers, threshold := 1, predication_types := ["CAUSES"],
    degree := 1, blocklist_cuis := [], thresholds_by_degree := [] }

/-- A predication row whose two semantic types both lie in the excluded set
(acty). -/
def actyRow : PredRow :=
  { subject_cui := "C0011570", subject_name := "Depression", subject_semtype := "acty",
    object_cui := "C0002395", object_name := "Alzheimer Disease", object_semtype := "acty",
    predicate := "CAUSES", pmid := "100001", sentence_id := "7" }

/-- A store whose only predication row is `actyRow`. -/
def storeSem : Store := { pred := [actyRow], sent := [] }

/-- C1 (counterexample): the only stored row carries the excluded semantic
type acty on both sides, yet the hop-1 query retains the triple; so it is
false that every retained assertion has both semantic types outside the
excluded set. -/
theorem hop_semtype_counterexample :
    storeSem.pred = [actyRow] ∧ actyRow.subject_semtype = "acty" ∧
      actyRow.object_semtype = "acty" ∧ (fetchFirstHop opsSem storeSem).length = 1 := by
  decide

/-! ## Pre-flight probe (`check_evidence_exists`, analysis_core.py 371-425) -/

/-- The WHERE clause of the probe query (lines 390-400): the predicate
filter, subject_cui IN the exposure list AND object_cui IN the outcome
list (`_create_cui_conditions` on each side, joined with AND). The query
has no blocklist clause and no semantic-type clause. -/
def probeFilter (ops : DbOps) (r : PredRow) : Bool :=
  predicateOk ops.predication_types r &&
    ops.config.exposure_cui_list.contains r.subject_cui &&
    ops.config.outcome_cui_list.contains r.object_cui

/-- The probe GROUP BY key: subject_cui, object_cui, predicate. -/
def probeKey (r : PredRow) : String × String × String :=
  (r.subject_cui, r.object_cui, r.predicate)

/-- COUNT(DISTINCT pmid) for one probe group. -/
def probeGroupPmidCount (rows : List PredRow) (k : String × String × String) : Nat :=
  (((rows.filter (fun r => decide (probeKey r = k))).map (·.pmid)).dedup).length

/-- `check_evidence_exists`: SELECT EXISTS of the grouped query with
HAVING COUNT(DISTINCT pmid) at least the flat threshold (`self.threshold`;
the hop-specific thresholds are not consulted); true iff some group
passes. -/
def checkEvidenceExists (ops : DbOps) (store : Store) : Bool :=
  let rows := store.pred.filter (probeFilter ops)
  ((rows.map probeKey).dedup).any
    (fun k => decide (ops.threshold ≤ probeGroupPmidCount rows k))

/-- A row from an exposure CUI to a CUI that is neither exposure nor
outcome: hop 1 admits it, the probe does not. -/
def strayRow : PredRow :=
  { subject_cui := "C0011570", subject_name := "Depression", subject_semtype := "dsyn",
    object_cui := "C0999999", object_name := "Some Node", object_semtype := "dsyn",
    predicate := "CAUSES", pmid := "100002", sentence_id := "3" }

/-- A store whose only predication row is `strayRow`. -/
def storeStray : Store := { pred := [strayRow], sent := [] }

/-- C4 (counterexample): the probe filter is not the hop-1 filter; on a
store holding one triple from an exposure CUI to a non-outcome CUI the
probe returns false while the hop-1 query retains an assertion, so the two
differ by more than the EXISTS and LIMIT shape. -/
theorem probe_not_hop1_counterexample :
    checkEvidenceExists opsSem storeStray = false ∧
      (fetchFirstHop opsSem storeStray).length = 1 := by
  decide

/-- C4 (amended): the probe applies the same predicate filter and the same
distinct-pmid threshold test as the hop queries, but with the CONJUNCTIVE
CUI condition, subject in the exposure list AND object in the outcome list,
grouped by (subject_cui, object_cui, predicate), and with neither the
blocklist clause (which hop 1 has) nor any semantic-type clause (which hop
1 also lacks); it returns true iff at least one stored row satisfies that
conjunctive filter and its group meets the flat threshold. -/
theorem checkEvidenceExists_characterization (ops : DbOps) (store : Store) :
    checkEvidenceExists ops store = true ↔
      ∃ r ∈ store.pred, probeFilter ops r = true ∧
        ops.threshold ≤
          probeGroupPmidCount (store.pred.filter (probeFilter ops)) (probeKey r) := by
  unfold checkEvidenceExists
  simp only [List.any_eq_true, List.mem_dedup, List.mem_map, decide_eq_true_eq,
    List.mem_filter]
  constructor
  · rintro ⟨k, ⟨r, ⟨hr, hpf⟩, rfl⟩, hthr⟩
    exact ⟨r, hr, hpf, hthr⟩
  · rintro ⟨r, hr, hpf, hthr⟩
    exact ⟨probeKey r, ⟨r, ⟨hr, hpf⟩, rfl⟩, hthr⟩

/-! ## The k-hop loop (`fetch_k_hop_relationships`, lines 561-599) -/

/-- Loop state of `fetch_k_hop_relationships`: the accumulated links and
assertions, the CUI set collected from hop 1 (`current_hop_cuis`), and, as
verification instrumentation, the trace of (hop, frontier) pairs passed to
`fetch_n_hop_relationships`. -/
structure KHopState where
  all_links : List (String × String)
  all_detailed : List Assertion
  current_hop_cuis : List String
  trace : List (Nat × Option (List String))
deriving DecidableEq

/-- The subject and object CUIs of a result list (lines 580-583),
deduplicated (the source accumulates them in a set). -/
def collectCuis (l : List Assertion) : List String :=
  (l.foldl (fun acc a => acc ++ [a.subject_cui, a.object_cui]) []).dedup

/-- One iteration of the hop loop (lines 568-583): frontier is None for hop
1 and `current_hop_cuis` otherwise; results are appended; only hop 1
populates `current_hop_cuis`. -/
def khopStep (ops : DbOps) (store : Store) (st : KHopState) (hop : Nat) : KHopState :=
  let previous := if hop = 1 then none else some st.current_hop_cuis
  let detailed := fetchNHop ops store hop previous
  let links := detailed.map fun a => (a.subject_name, a.object_name)
  let st' : KHopState :=
    { all_links := st.all_links ++ links,
      all_detailed := st.all_detailed ++ detailed,
      current_hop_cuis := st.current_hop_cuis,
      trace := st.trace ++ [(hop, previous)] }
  if hop = 1 then { st' with current_hop_cuis := collectCuis detailed } else st'

/-- The loop over hop levels 1..n of `fetch_k_hop_relationships`. -/
def khopRun (ops : DbOps) (store : Store) : Nat → KHopState
  | 0 => { all_links := [], all_detailed := [], current_hop_cuis := [], trace := [] }
  | n + 1 => khopStep ops store (khopRun ops store n) (n + 1)

theorem khopStep_current_ne1 (ops : DbOps) (store : Store) (st : KHopState) (hop : Nat)
    (h : hop ≠ 1) :
    (khopStep ops store st hop).current_hop_cuis = st.current_hop_cuis := by
  simp [khopStep, h]

theorem khopStep_current_1 (ops : DbOps) (store : Store) (st : KHopState) :
    (khopStep ops store st 1).current_hop_cuis = collectCuis (fetchFirstHop ops store) := by
  simp [khopStep, fetchNHop]

theorem khopStep_trace (ops : DbOps) (store : Store) (st : KHopState) (hop : Nat) :
    (khopStep ops store st hop).trace =
      st.trace ++ [(hop, if hop = 1 then none else some st.current_hop_cuis)] := by
  by_cases h : hop = 1 <;> simp [khopStep, h]

/-- After the first hop has run, `current_hop_cuis` is exactly the hop-1
CUI set and never changes again. -/
theorem khopRun_current (ops : DbOps) (store : Store) (n : Nat) (hn : 1 ≤ n) :
    (khopRun ops store n).current_hop_cuis = collectCuis (fetchFirstHop ops store) := by
  induction n with
  | zero => exact absurd hn (by omega)
  | succ m ih =>
    cases Nat.eq_zero_or_pos m with
    | inl h0 =>
      subst h0
      simp only [khopRun]
      exact khopStep_current_1 ops store _
    | inr hpos =>
      simp only [khopRun]
      rw [khopStep_current_ne1 ops store _ (m + 1) (by omega)]
      exact ih hpos

theorem khopRun_trace_frontier (ops : DbOps) (store : Store) (n : Nat) :
    ∀ h fr, (h, fr) ∈ (khopRun ops store n).trace → 2 ≤ h →
      fr = some (collectCuis (fetchFirstHop ops store)) := by
  induction n with
  | zero => intro h fr hmem _; simp [khopRun] at hmem
  | succ m ih =>
    intro h fr hmem h2
    simp only [khopRun] at hmem
    rw [khopStep_trace] at hmem
    rcases List.mem_append.mp hmem with hmem | hmem
    · exact ih h fr hmem h2
    · have heq := List.mem_singleton.mp hmem
      cases heq
      have hm : m + 1 ≠ 1 := by omega
      rw [if_neg hm]
      rw [khopRun_current ops store m (by omega)]

/-- C6: every hop level of two or more queries with the frontier equal to
exactly the CUI set collected from the hop-1 assertions; CUIs first
discovered at hops two and later are never added to the frontier used by
later hops. -/
theorem khop_frontier_is_hop1 (ops : DbOps) (store : Store) (h : Nat)
    (fr : Option (List String))
    (hmem : (h, fr) ∈ (khopRun ops store ops.degree).trace) (h2 : 2 ≤ h) :
    fr = some (collectCuis (fetchFirstHop ops store)) :=
  khopRun_trace_frontier ops store ops.degree h fr hmem h2

/-- The depression-alzheimers operations at degree 3 (threshold 1, CAUSES,
no blocklist). -/
def opsDeg3 : DbOps :=
  { config := depressionAlzheimers, threshold := 1, predication_types := ["CAUSES"],
    degree := 3, blocklist_cuis := [], thresholds_by_degree := [] }

/-- C6 witness: the frontier recorded for hop 2 of a concrete degree-3 run
equals the hop-1 CUI set. -/
theorem khop_frontier_is_hop1_witness :
    (some ["C0011570", "C0002395"] : Option (List String)) =
      some (collectCuis (fetchFirstHop opsDeg3 storeSem)) :=
  khop_frontier_is_hop1 opsDeg3 storeSem 2 (some ["C0011570", "C0002395"])
    (by decide) (by decide)

/-! ## Canonical-name election (`build_cui_to_name_mapping`, lines 522-559)

Python dictionaries preserve insertion order; the nested count dictionaries
are modelled by insertion-ordered association lists, and Python
max(items, key) keeps the first entry attaining the maximum. -/

/-- Add one occurrence of a name to an insertion-ordered count list. -/
def bumpName : List (String × Nat) → String → List (String × Nat)
  | [], name => [(name, 1)]
  | (n, c) :: rest, name =>
    if n = name then (n, c + 1) :: rest else (n, c) :: bumpName rest name

/-- Add one occurrence of a name under a CUI. -/
def bumpCui : List (String × List (String × Nat)) → String → String →
    List (String × List (String × Nat))
  | [], cui, name => [(cui, bumpName [] name)]
  | (k, nc) :: rest, cui, name =>
    if k = cui then (k, bumpName nc name) :: rest else (k, nc) :: bumpCui rest cui name

/-- The counting pass (lines 536-550): per assertion, the subject name is
counted under the subject CUI and the object name under the object CUI;
falsy (empty) fields are skipped. -/
def addAssertionCounts (m : List (String × List (String × Nat))) (a : Assertion) :
    List (String × List (String × Nat)) :=
  let m₁ :=
    if a.subject_cui ≠ "" ∧ a.subject_name ≠ "" then bumpCui m a.subject_cui a.subject_name
    else m
  if a.object_cui ≠ "" ∧ a.object_name ≠ "" then bumpCui m₁ a.object_cui a.object_name
  else m₁

/-- The full `cui_name_counts` table of the source. -/
def cuiNameCounts (l : List Assertion) : List (String × List (String × Nat)) :=
  l.foldl addAssertionCounts []

/-- Python max(name_counts.items(), key) over an insertion-ordered list:
the fold replaces the current best only on a strictly greater count, so
the FIRST entry attaining the maximum wins (line 556). -/
def firstMax : List (String × Nat) → Option (String × Nat)
  | [] => none
  | x :: xs => some (xs.foldl (fun acc y => if acc.2 < y.2 then y else acc) x)

/-- `build_cui_to_name_mapping` (lines 552-559): per CUI, the name elected
by max over the counts. -/
def buildCuiToNameMapping (l : List Assertion) : List (String × String) :=
  (cuiNameCounts l).filterMap fun p => (firstMax p.2).map fun m => (p.1, m.1)

/-- The election rule in specification form: the result of scanning from
the left, where an earlier entry loses only to a strictly greater count
(most-frequent wins, first occurrence breaks ties). -/
def specFirstMax : List (String × Nat) → Option (String × Nat)
  | [] => none
  | x :: xs =>
    match specFirstMax xs with
    | none => some x
    | some m => if x.2 < m.2 then some m else some x

theorem firstMax_foldl (xs : List (String × Nat)) (x : String × Nat) :
    xs.foldl (fun acc y => if acc.2 < y.2 then y else acc) x =
      match specFirstMax xs with
      | none => x
      | some m => if x.2 < m.2 then m else x := by
  induction xs generalizing x with
  | nil => rfl
  | cons y ys ih =>
    rw [List.foldl_cons, ih]
    cases hs : specFirstMax ys with
    | none => simp only [specFirstMax, hs]
    | some m =>
      simp only [specFirstMax, hs]
      by_cases h1 : x.2 < y.2
      · by_cases h2 : y.2 < m.2
        · have h3 : x.2 < m.2 := by omega
          simp [h1, h2, h3]
        · simp [h1, h2]
      · by_cases h2 : y.2 < m.2
        · simp [h1, h2]
        · have h3 : ¬x.2 < m.2 := by omega
          simp [h1, h2, h3]

theorem firstMax_eq_spec (nc : List (String × Nat)) : firstMax nc = specFirstMax nc := by
  cases nc with
  | nil => rfl
  | cons x xs =>
    rw [show firstMax (x :: xs) =
        some (xs.foldl (fun acc y => if acc.2 < y.2 then y else acc) x) from rfl,
      firstMax_foldl]
    cases hs : specFirstMax xs with
    | none => simp [specFirstMax, hs]
    | some m =>
      simp only [specFirstMax, hs]
      by_cases h : x.2 < m.2 <;> simp [h]

theorem specFirstMax_eq_none (l : List (String × Nat)) :
    specFirstMax l = none ↔ l = [] := by
  cases l with
  | nil => simp [specFirstMax]
  | cons x xs =>
    simp only [specFirstMax]
    cases hs : specFirstMax xs with
    | none => simp
    | some m => by_cases h : x.2 < m.2 <;> simp [h]

theorem specFirstMax_mem_le (l : List (String × Nat)) (m : String × Nat)
    (hm : specFirstMax l = some m) : ∀ y ∈ l, y.2 ≤ m.2 := by
  induction l generalizing m with
  | nil => simp [specFirstMax] at hm
  | cons x xs ih =>
    intro y hy
    cases hs : specFirstMax xs with
    | none =>
      have hxs : xs = [] := (specFirstMax_eq_none xs).mp hs
      subst hxs
      simp only [specFirstMax] at hm
      cases hm
      rcases List.mem_singleton.mp hy with rfl
      exact le_refl _
    | some m' =>
      simp only [specFirstMax, hs] at hm
      rcases List.mem_cons.mp hy with rfl | hy'
      · by_cases hx : y.2 < m'.2
        · rw [if_pos hx] at hm
          cases hm
          omega
        · rw [if_neg hx] at hm
          cases hm
          exact le_refl _
      · have hle := ih m' hs y hy'
        by_cases hx : x.2 < m'.2
        · rw [if_pos hx] at hm
          cases hm
          exact hle
        · rw [if_neg hx] at hm
          cases hm
          omega

/-- C7 (amended): for every CUI the consolidation mapper elects the surface
name with the greatest occurrence count over the assertion list; several
names tying for the greatest count are broken by FIRST OCCURRENCE (the
first name, in insertion order of the count table, attaining the maximal
count), not by the lexicographically smallest cleaned form. -/
theorem buildCuiToNameMapping_election (l : List Assertion) :
    buildCuiToNameMapping l =
        ((cuiNameCounts l).filterMap fun p => (specFirstMax p.2).map fun m => (p.1, m.1)) ∧
      ∀ (nc : List (String × Nat)) (m : String × Nat),
        specFirstMax nc = some m → ∀ y ∈ nc, y.2 ≤ m.2 := by
  constructor
  · unfold buildCuiToNameMapping
    simp only [firstMax_eq_spec]
  · exact fun nc m hm => specFirstMax_mem_le nc m hm

/-- C7 witness: the amended statement applied at concrete inputs. -/
theorem buildCuiToNameMapping_election_witness :
    buildCuiToNameMapping [] = [] ∧ (("n", 1) : String × Nat).2 ≤ 1 :=
  ⟨by
      have h := (buildCuiToNameMapping_election []).1
      simpa using h,
    (buildCuiToNameMapping_election []).2 [("n", 1)] ("n", 1) rfl ("n", 1)
      (List.mem_singleton.mpr rfl)⟩

/-- An assertion whose subject surface name comes lexicographically later. -/
def assertBB : Assertion :=
  { subject_name := "b b", subject_cui := "C1", predicate := "CAUSES",
    object_name := "Alz", object_cui := "C2", evidence_count := 1, hop_level := 1,
    pmids := ["1"] }

/-- The same CUI with an earlier-sorting surface name, occurring second. -/
def assertAA : Assertion :=
  { subject_name := "a a", subject_cui := "C1", predicate := "CAUSES",
    object_name := "Alz", object_cui := "C2", evidence_count := 1, hop_level := 1,
    pmids := ["2"] }

/-- Lexicographic order on character lists (standard dictionary order),
used to state which cleaned form is the smaller one. -/
def lexLt : List Char → List Char → Bool
  | [], [] => false
  | [], _ :: _ => true
  | _ :: _, [] => false
  | a :: as, b :: bs => if a < b then true else if b < a then false else lexLt as bs

/-- C7 (counterexample): the two surface names of CUI C1 tie at one
occurrence each; the mapper elects the first-seen name even though the
other name has the strictly smaller cleaned form, so the tiebreak is not
the lexicographically smallest cleaned form. -/
theorem buildCuiToNameMapping_tiebreak_counterexample :
    (buildCuiToNameMapping [assertBB, assertAA]).lookup "C1" = some "b b" ∧
      lexLt (cleanOutputName "a a").data (cleanOutputName "b b").data = true := by
  decide

/-! ## Consolidated node mapping (`create_consolidated_node_mapping`,
database_operations.py, lines 201-250) -/

/-- Python dict insertion: overwrite the entry of an existing key in place,
append a new key at the end. -/
def dictInsert (m : List (String × String)) (k v : String) : List (String × String) :=
  if (m.map (·.1)).contains k then m.map fun p => if p.1 = k then (k, v) else p
  else m ++ [(k, v)]

/-- `fetch_cui_name_mappings` (lines 252-275): SELECT DISTINCT cui, name
from the sentence table for the given CUIs, folded into a dictionary (for
one CUI with several distinct names a later row overwrites an earlier one,
as in the Python dict comprehension of line 269). -/
def fetchCuiNameMappings (store : Store) (cuis : List String) : List (String × String) :=
  (((store.sent.filter fun s => cuis.contains s.cui).map fun s => (s.cui, s.name)).dedup).foldl
    (fun m p => dictInsert m p.1 p.2) []

/-- `create_consolidated_node_mapping` (lines 201-246), success path: the
cleaned canonical name of every exposure CUI maps to the cleaned exposure
label, with the fallback name Exposure_CUI for CUIs without a fetched
name; outcomes analogously, written second. -/
def consolidatedNodeMapping (ops : DbOps) (store : Store) : List (String × String) :=
  let all_cuis := ops.config.exposure_cui_list ++ ops.config.outcome_cui_list
  let cnm := fetchCuiNameMappings store all_cuis
  let ce := cleanOutputName ops.config.exposure_name
  let co := cleanOutputName ops.config.outcome_name
  let m₁ := ops.config.exposure_cui_list.foldl
    (fun m cui =>
      match cnm.lookup cui with
      | some nm => dictInsert m (cleanOutputName nm) ce
      | none => dictInsert m (cleanOutputName ("Exposure_" ++ cui)) ce) []
  ops.config.outcome_cui_list.foldl
    (fun m cui =>
      match cnm.lookup cui with
      | some nm => dictInsert m (cleanOutputName nm) co
      | none => dictInsert m (cleanOutputName ("Outcome_" ++ cui)) co) m₁

/-- `apply_consolidated_mapping` (lines 248-250). -/
def applyConsolidatedMapping (name : String) (m : List (String × String)) : String :=
  (m.lookup name).getD name

/-! ## `run_analysis` (analysis_core.py, lines 427-500) -/

/-- The files written by a run: the DAGitty script keyed by degree (content
modelled as the consolidated node and edge sets it renders), the
causal-assertions dossier keyed by degree, and the performance metrics.
The R text rendering and the JSON formatting are not modelled. -/
inductive Artifact
  | dagScript (degree : Nat) (nodes : List String) (edges : List (String × String))
  | causalAssertions (degree : Nat) (assertions : List Assertion)
  | performanceMetrics
deriving DecidableEq

/-- The value `run_analysis` returns: the error record of line 451, or the
timing data of a completed run (wall-clock contents not modelled). -/
inductive AnalysisResult
  | noEvidence (record : List (String × String))
  | completed
deriving DecidableEq

/-- A run outcome: the artifacts written to the output directory and the
returned value. -/
structure RunOutput where
  artifacts : List Artifact
  result : AnalysisResult
deriving DecidableEq

/-- `cui_based_links` (lines 589-597): the canonical names of both
endpoints, kept when both CUIs are truthy and present in the mapping. -/
def cuiBasedLinks (all : List Assertion) : List (String × String) :=
  let m := buildCuiToNameMapping all
  all.filterMap fun a =>
    if a.subject_cui ≠ "" ∧ a.object_cui ≠ "" then
      match m.lookup a.subject_cui, m.lookup a.object_cui with
      | some cs, some co => some (cs, co)
      | _, _ => none
    else none

/-- `fetch_k_hop_relationships` (lines 561-599) in full: run the hop loop
for every level up to the degree, then derive the CUI-based links through
the canonical-name mapping. -/
def fetchKHopRelationships (ops : DbOps) (store : Store) :
    List String × List (String × String) × List Assertion :=
  let st := khopRun ops store ops.degree
  (st.current_hop_cuis, cuiBasedLinks st.all_detailed, st.all_detailed)

/-- The consolidated edge set of lines 469-482: clean both endpoints of
every CUI-based link, apply the consolidated mapping, and keep the
non-self-loop edges (deduplicated, as the source inserts into a set). -/
def consolidatedEdges (links : List (String × String)) (m : List (String × String)) :
    List (String × String) :=
  ((links.map fun e =>
      (applyConsolidatedMapping (cleanOutputName e.1) m,
       applyConsolidatedMapping (cleanOutputName e.2) m)).filter
    fun e => decide (e.1 ≠ e.2)).dedup

/-- `run_analysis` (lines 427-500): the probe runs first; when it returns
false the run prints an explanation, writes nothing, and returns the error
record of line 451; otherwise the k-hop loop, the consolidation, the graph
construction, the DAG script and the result files all run. The embedding
is a total function: the no-evidence outcome is a returned value, not an
exception. -/
def runAnalysis (ops : DbOps) (store : Store) : RunOutput :=
  if checkEvidenceExists ops store then
    let st := khopRun ops store ops.degree
    let links := cuiBasedLinks st.all_detailed
    let m := consolidatedNodeMapping ops store
    let edges := consolidatedEdges links m
    let nodes := (edges.map (·.1) ++ edges.map (·.2)).dedup
    { artifacts := [Artifact.dagScript ops.degree nodes edges,
        Artifact.causalAssertions ops.degree st.all_detailed,
        Artifact.performanceMetrics],
      result := AnalysisResult.completed }
  else
    { artifacts := [],
      result := AnalysisResult.noEvidence [("error", "No evidence found")] }

/-- C5: whenever the pre-flight probe returns false, the run emits no DAG
or dossier artifact (the artifact list is empty), and returns the short
machine-readable reason record, the distinguished no-evidence outcome
carrying the error entry No evidence found, rather than raising an
exception (the embedding is a total function). -/
theorem runAnalysis_no_evidence (ops : DbOps) (store : Store)
    (h : checkEvidenceExists ops store = false) :
    (runAnalysis ops store).artifacts = [] ∧
      (runAnalysis ops store).result =
        AnalysisResult.noEvidence [("error", "No evidence found")] := by
  simp [runAnalysis, h]

/-- A store with no rows at all. -/
def storeEmpty : Store := { pred := [], sent := [] }

/-- C5 witness: a concrete probe failure. -/
theorem runAnalysis_no_evidence_witness :
    (runAnalysis opsSem storeEmpty).artifacts = [] ∧
      (runAnalysis opsSem storeEmpty).result =
        AnalysisResult.noEvidence [("error", "No evidence found")] :=
  runAnalysis_no_evidence opsSem storeEmpty (by decide)

/-! ## Markov-blanket computation (markov_blanket.py) -/

/-- A SQL statement of the WITH shape: the named common-table-expression
definitions followed by an optional primary statement. -/
structure WithQuery where
  ctes : List String
  body : Option String
deriving DecidableEq

/-- The statement assembled by `_compute_outcome_markov_blanket` (lines
163-211): the f-string defines the three CTEs and then ends; no primary
SELECT follows the WITH clause. -/
def outcomeMBQuery : WithQuery :=
  { ctes := ["outcome_parents", "outcome_children", "children_parents"], body := none }

/-- The statement assembled by `_compute_exposure_markov_blanket` (lines
228-282), which does end with a primary statement selecting the union of
its three CTEs (lines 277-281). -/
def exposureMBQuery : WithQuery :=
  { ctes := ["exposure_parents", "exposure_children", "children_parents"],
    body := some "SELECT DISTINCT node FROM exposure_parents UNION SELECT DISTINCT node FROM exposure_children UNION SELECT DISTINCT node FROM children_parents" }

/-- Modelled from the spec: the database engine is not part of the
repository; under the QueryError taxonomy a syntactically invalid
statement fails at execution, and a WITH clause lacking a primary
statement is invalid SQL, so executing a body-less statement yields a
syntax error from the engine. A statement with a body returns rows; their
contents are not modelled because no settled claim reaches such an
execution (see `computeExposureMB`). -/
def execWithQuery (q : WithQuery) : Except String (List String) :=
  match q.body with
  | none => .error "QueryError: syntax error at end of input"
  | some _ => .ok []

/-- `_compute_outcome_markov_blanket` (lines 157-220): assemble
`outcomeMBQuery` and execute it on the cursor. -/
def computeOutcomeMB (outcome_cui : String) : Except String (List String) :=
  execWithQuery outcomeMBQuery

/-- `_compute_exposure_markov_blanket` (lines 222-291): before any query
executes, the parameter assembly of lines 285-287 concatenates a Python
list with tuple(outcome_cuis), which raises TypeError unconditionally, so
the function never returns normally. -/
def computeExposureMB (exposure_cui : String) (outcome_cuis : List String) :
    Except String (List String) :=
  .error "TypeError: can only concatenate list (not tuple) to list"

/-- The outcome loop of `compute_markov_blankets` (lines 136-139),
accumulating the union of the per-CUI node sets. -/
def mbOutcomeLoop : List String → Except String (List String)
  | [] => .ok []
  | cui :: rest => do
    let nodes ← computeOutcomeMB cui
    let more ← mbOutcomeLoop rest
    pure ((nodes ++ more).dedup)

/-- The exposure loop (lines 142-145). -/
def mbExposureLoop (outcome_cuis : List String) : List String → Except String (List String)
  | [] => .ok []
  | cui :: rest => do
    let nodes ← computeExposureMB cui outcome_cuis
    let more ← mbExposureLoop outcome_cuis rest
    pure ((nodes ++ more).dedup)

/-- The state of `MarkovBlanketComputer` (markov_blanket.py, lines 69-75). -/
structure MBComputer where
  config : ExposureOutcomePair
  threshold : Nat
  predication_types : List String
deriving DecidableEq

/-- `compute_markov_blankets` (lines 107-155): every outcome CUI first,
then every exposure CUI, then the union with the cleaned exposure and
outcome labels. No exception handler exists in the method or its caller,
so a database error propagates. -/
def computeMarkovBlankets (mb : MBComputer) : Except String (List String) := do
  let o ← mbOutcomeLoop mb.config.outcome_cui_list
  let e ← mbExposureLoop mb.config.outcome_cui_list mb.config.exposure_cui_list
  pure ((o ++ e ++ [cleanOutputName mb.config.exposure_name,
    cleanOutputName mb.config.outcome_name]).dedup)

/-- C2: the outcome Markov-blanket SQL consists solely of the three
common-table-expression definitions outcome_parents, outcome_children and
children_parents with no final SELECT; executing it yields a database
error, and for every computer whose outcome CUI list is non-empty
`compute_markov_blankets` propagates that error instead of returning a
Markov-blanket node set. -/
theorem computeMarkovBlankets_outcome_error (mb : MBComputer)
    (h : mb.config.outcome_cui_list ≠ []) :
    outcomeMBQuery.body = none ∧
      outcomeMBQuery.ctes = ["outcome_parents", "outcome_children", "children_parents"] ∧
      computeMarkovBlankets mb = .error "QueryError: syntax error at end of input" := by
  refine ⟨rfl, rfl, ?_⟩
  obtain ⟨c, rest, hc⟩ := List.exists_cons_of_ne_nil h
  unfold computeMarkovBlankets
  rw [hc]
  rfl

/-- The smoking-cancer configuration (config_models.py, lines 215-222),
CUIs coerced to lists. -/
def smokingCancer : ExposureOutcomePair :=
  { name := "smoking_cancer", exposure_cui := ["C0037369"], exposure_name := "Smoking",
    outcome_cui := ["C0006826", "C0024121"], outcome_name := "Cancer",
    description := "Investigating the relationship between smoking and cancer" }

/-- C2 witness: the statement applied at a concrete computer with a
non-empty outcome CUI list. -/
theorem computeMarkovBlankets_outcome_error_witness :
    outcomeMBQuery.body = none ∧
      outcomeMBQuery.ctes = ["outcome_parents", "outcome_children", "children_parents"] ∧
      computeMarkovBlankets
          { config := smokingCancer, threshold := 50, predication_types := ["CAUSES"] } =
        .error "QueryError: syntax error at end of input" :=
  computeMarkovBlankets_outcome_error
    { config := smokingCancer, threshold := 50, predication_types := ["CAUSES"] }
    (by decide)

/-- C3: evaluation at the failing input: for the depression-alzheimers
configuration (threshold 50, CAUSES predicate, any store) the
Markov-blanket computation yields a database error and never the union of
parents, children names and spouses that the claim describes; moreover the
spouse SQL in the source (the children_parents CTE) contains no clause
excluding the canonical surface names of the target, and the exposure-side
parameter assembly raises TypeError (see `computeExposureMB`). -/
theorem computeMarkovBlankets_failing_input :
    computeMarkovBlankets
        { config := depressionAlzheimers, threshold := 50,
          predication_types := ["CAUSES"] } =
      .error "QueryError: syntax error at end of input" := by
  rfl

/-! ## YAML configuration plumbing (claim C9)

`load_yaml_config` (config_models.py) builds the dictionary the CLI hands
to `GraphAnalyzer.__init__` (analysis_core.py) as yaml_config_data. -/

/-- A YAML value as the configuration code consumes it. -/
inductive ConfigValue
  | strs (l : List String)
  | nat (n : Nat)
  | str (s : String)
deriving DecidableEq

/-- A parsed YAML document, or the dictionary built from one: an ordered
association of keys to values. -/
abbrev YamlDoc := List (String × ConfigValue)

/-- Python dict get on a document. -/
def yamlGet (doc : YamlDoc) (key : String) : Option ConfigValue :=
  (doc.find? fun p => decide (p.1 = key)).map (·.2)

/-- A value coerced to a CUI list as lines 66-75 of config_models.py do: a
list stays, a truthy scalar becomes a singleton, an absent value the empty
list (numeric scalars are not modelled; no claim uses them as CUIs). -/
def getStrs : Option ConfigValue → List String
  | some (.strs l) => l
  | some (.str s) => [s]
  | some (.nat _) => []
  | none => []

/-- `load_yaml_config` (config_models.py, lines 55-123), restricted to the
fields the settled claims consume: the dictionary literal of lines
107-116. The loader reads the optional blacklist under the YAML key
blacklist_cuis (line 68) and returns it under the dictionary key
blacklist_cuis (line 110). The predication-type splitting and validation
of lines 86-105 and the full_config passthrough are not modelled (no
settled claim depends on them). -/
def loadYamlConfigData (doc : YamlDoc) : YamlDoc :=
  [("exposure_cuis", .strs (getStrs (yamlGet doc "exposure_cuis"))),
   ("outcome_cuis", .strs (getStrs (yamlGet doc "outcome_cuis"))),
   ("blacklist_cuis", .strs (getStrs (yamlGet doc "blacklist_cuis"))),
   ("threshold", match yamlGet doc "min_pmids" with
     | some (.nat n) => .nat n
     | _ => .nat 50),
   ("degree", match yamlGet doc "degree" with
     | some (.nat n) => .nat n
     | _ => .nat 3),
   ("predication_type", (yamlGet doc "predication_type").getD (.str "CAUSES")),
   ("predication_types",
     .strs (match getStrs (yamlGet doc "predication_type") with
       | [] => ["CAUSES"]
       | p => p))]

/-- `load_yaml_config` including the required-field validation of lines
62-63. -/
def loadYamlConfig (doc : YamlDoc) : Except String YamlDoc :=
  if (yamlGet doc "exposure_cuis").isNone ∨ (yamlGet doc "outcome_cuis").isNone then
    .error "YAML file must contain exposure_cuis and outcome_cuis fields"
  else .ok (loadYamlConfigData doc)

/-- The blocklist extraction of `GraphAnalyzer.__init__` (analysis_core.py,
lines 79-85): the blocklist is read from the key blocklist_cuis of
yaml_config_data when that key is present, and is empty otherwise. -/
def analyzerBlocklist (yaml_config_data : Option YamlDoc) : List String :=
  match yaml_config_data with
  | some d =>
    match yamlGet d "blocklist_cuis" with
    | some (.strs l) => l
    | _ => []
  | none => []

/-- The `DatabaseOperations` built by `GraphAnalyzer.__init__` (line 85)
when the configuration came from a YAML document: the blocklist is the one
extracted from the loaded dictionary. -/
def analyzerOpsFromYaml (cfg : ExposureOutcomePair) (threshold degree : Nat)
    (preds : List String) (doc : YamlDoc) : DbOps :=
  { config := cfg, threshold := threshold, predication_types := preds, degree := degree,
    blocklist_cuis := analyzerBlocklist (some (loadYamlConfigData doc)),
    thresholds_by_degree := [] }

/-- The user_input.yaml shape read by the blocklist tests of the
repository: a blocklist entry under the key blocklist_cuis. -/
def yamlDocBlock : YamlDoc :=
  [("exposure_cuis", .strs ["C0011570"]), ("outcome_cuis", .strs ["C0002395"]),
   ("blocklist_cuis", .strs ["C0011570"]), ("min_pmids", .nat 1), ("degree", .nat 1)]

/-- C9: the loader returns the blocklist under the key blacklist_cuis while
the analyzer reads the key blocklist_cuis, so the blocklist extracted from
EVERY loaded YAML document is empty; consequently, on the concrete document
that blocklists C0011570, the hop-1 query of the analyzer built through the
YAML path retains an assertion whose subject CUI is the blocklisted
C0011570 — the blocklist invariant fails on the YAML configuration path. -/
theorem yaml_blocklist_dropped :
    (∀ doc : YamlDoc, analyzerBlocklist (some (loadYamlConfigData doc)) = []) ∧
      getStrs (yamlGet yamlDocBlock "blocklist_cuis") = ["C0011570"] ∧
      (fetchFirstHop (analyzerOpsFromYaml depressionAlzheimers 1 1 ["CAUSES"] yamlDocBlock)
          storeSem).map (fun a => a.subject_cui) = ["C0011570"] := by
  refine ⟨fun doc => rfl, by decide, by decide⟩

end CKT
